import Mathlib

/-
Verification of the OpenAnomaly pipeline execution engine.

Shallow embedding of the Python source of CometControl/OpenAnomaly:
  - src/openanomaly/pipelines/inference.py       (InferenceLoop)
  - src/openanomaly/core/services/inference_loop.py
  - src/openanomaly/core/services/training_loop.py (TrainingLoop)
  - src/openanomaly/pipelines/signals.py         (RedBeat scheduler sync)
  - src/openanomaly/adapters/tsdb/prometheus.py  (series identifier codec)
  - src/openanomaly/common/adapters/models/chronos/adapter.py (Chronos V1 path)

Python strings are modelled as Lean String / List Char, pandas DataFrames as
records of column lists and typed rows, machine floats as rationals, and the
two I/O ports (time-series store, model engine) as explicit function
arguments.  Python exceptions are modelled with Except over the PyError type
below.  Side effects (scheduler upserts and deletes, store writes, port
calls) are returned as explicit action lists.
-/

namespace OpenAnomaly

/-- Kinds of Python runtime errors that the embedded code can raise.
There is no InvalidDurationError, DataInsufficiencyError or
ConfigurationError class anywhere in the repository; the embedded error
type therefore has only the built-in Python exceptions actually reachable
in the translated code. -/
inductive PyError where
  | indexError
  | valueError
  | zeroDivisionError
  deriving DecidableEq, Repr

/-- Drop whitespace from both ends of a character list; models the default
Python str.strip() used on label keys and values (Lean Char.isWhitespace
covers the ASCII whitespace that occurs in metric identifiers). -/
def trimWS (l : List Char) : List Char :=
  ((l.dropWhile Char.isWhitespace).reverse.dropWhile Char.isWhitespace).reverse

/-- Tail of the Python integer-literal grammar after the first digit:
digits optionally separated by single underscores, as accepted by int(). -/
def pyDigitsTail : List Char → Bool
  | [] => true
  | c :: rest =>
    if c = '_' then
      match rest with
      | [] => false
      | d :: rest2 => d.isDigit && pyDigitsTail rest2
    else c.isDigit && pyDigitsTail rest

/-- Whether a character list is a valid unsigned Python integer literal
body (non-empty digits, optional single underscores between digits). -/
def pyDigits (l : List Char) : Bool :=
  match l with
  | [] => false
  | c :: rest => c.isDigit && pyDigitsTail rest

/-- Numeric value of a digit list, ignoring underscore separators. -/
def digitsVal (l : List Char) : Int :=
  l.foldl (fun acc c => if c = '_' then acc else acc * 10 + Int.ofNat (c.toNat - 48)) 0

/-- Models the Python built-in int(str): strip surrounding whitespace,
accept an optional sign followed by digits, raise ValueError otherwise.
(Unicode digits are not modelled; none occur in the duration strings this
repository handles.) -/
def pyInt (l : List Char) : Except PyError Int :=
  let t := trimWS l
  match t with
  | [] => .error .valueError
  | c :: rest =>
    if c = '+' then
      if pyDigits rest then .ok (digitsVal rest) else .error .valueError
    else if c = '-' then
      if pyDigits rest then .ok (-(digitsVal rest)) else .error .valueError
    else
      if pyDigits (c :: rest) then .ok (digitsVal (c :: rest)) else .error .valueError

/-- Embedding of InferenceLoop._parse_duration
(src/openanomaly/pipelines/inference.py lines 165-174 and the identical
copy in src/openanomaly/core/services/inference_loop.py lines 135-144):
  unit = duration_str[-1]            -- IndexError on the empty string
  value = int(duration_str[:-1])     -- ValueError on a non-numeric magnitude
  if unit == "s": return value
  if unit == "m": return value * 60
  if unit == "h": return value * 3600
  if unit == "d": return value * 86400
  return value                       -- unknown unit falls through -/
def parse_duration (s : String) : Except PyError Int :=
  match s.data.getLast? with
  | none => .error .indexError
  | some unit =>
    match pyInt s.data.dropLast with
    | .error e => .error e
    | .ok value =>
      if unit = 's' then .ok value
      else if unit = 'm' then .ok (value * 60)
      else if unit = 'h' then .ok (value * 3600)
      else if unit = 'd' then .ok (value * 86400)
      else .ok value

/- Basic facts about the helper functions. -/

theorem dropWhile_eq_self_of_none {p : Char → Bool} :
    ∀ {l : List Char}, (∀ c ∈ l, p c = false) → l.dropWhile p = l
  | [], _ => rfl
  | c :: rest, h => by
    have hc : p c = false := h c (List.mem_cons_self c rest)
    simp [List.dropWhile_cons, hc]

theorem trimWS_eq_self {l : List Char} (h : ∀ c ∈ l, c.isWhitespace = false) :
    trimWS l = l := by
  unfold trimWS
  rw [dropWhile_eq_self_of_none h]
  rw [dropWhile_eq_self_of_none (fun c hc => h c (List.mem_reverse.mp hc))]
  exact List.reverse_reverse l

theorem pyDigitsTail_of_digits :
    ∀ {l : List Char}, (∀ c ∈ l, c.isDigit = true) → pyDigitsTail l = true
  | [], _ => rfl
  | c :: rest, h => by
    have hc : c.isDigit = true := h c (List.mem_cons_self c rest)
    have hne : ¬(c = '_') := by
      intro hEq; rw [hEq] at hc; exact absurd hc (by decide)
    have ih := pyDigitsTail_of_digits (fun d hd => h d (List.mem_cons_of_mem c hd))
    unfold pyDigitsTail
    rw [if_neg hne, hc, ih]
    rfl

theorem pyDigits_of_digits {l : List Char} (hne : l ≠ [])
    (h : ∀ c ∈ l, c.isDigit = true) : pyDigits l = true := by
  cases l with
  | nil => exact absurd rfl hne
  | cons c rest =>
    have hc : c.isDigit = true := h c (List.mem_cons_self c rest)
    have ht := pyDigitsTail_of_digits (fun d hd => h d (List.mem_cons_of_mem c hd))
    simp [pyDigits, hc, ht]

theorem digit_not_ws {c : Char} (hd : c.isDigit = true) : c.isWhitespace = false := by
  cases hv : c.isWhitespace with
  | false => rfl
  | true =>
    exfalso
    have hmem : c = ' ' ∨ c = '\t' ∨ c = '\x0d' ∨ c = '\n' := by
      unfold Char.isWhitespace at hv
      simp only [Bool.or_eq_true, decide_eq_true_eq] at hv
      tauto
    rcases hmem with h1 | h1 | h1 | h1 <;> rw [h1] at hd <;> exact absurd hd (by decide)

theorem pyInt_of_digits {l : List Char} (hne : l ≠ [])
    (h : ∀ c ∈ l, c.isDigit = true) : pyInt l = .ok (digitsVal l) := by
  have hWS : ∀ c ∈ l, c.isWhitespace = false := fun c hc => digit_not_ws (h c hc)
  have htrim : trimWS l = l := trimWS_eq_self hWS
  cases l with
  | nil => exact absurd rfl hne
  | cons c rest =>
    have hc : c.isDigit = true := h c (List.mem_cons_self c rest)
    have hplus : ¬(c = '+') := by
      intro hEq; rw [hEq] at hc; exact absurd hc (by decide)
    have hminus : ¬(c = '-') := by
      intro hEq; rw [hEq] at hc; exact absurd hc (by decide)
    have hdig := pyDigits_of_digits (l := c :: rest) (by simp) h
    simp only [pyInt, htrim]
    simp [hplus, hminus, hdig]

instance {ε α : Type} [DecidableEq ε] [DecidableEq α] : DecidableEq (Except ε α) := by
  intro a b
  cases a with
  | error e =>
    cases b with
    | error f =>
      exact decidable_of_iff (e = f) ⟨fun h => by rw [h], fun h => by injection h⟩
    | ok w => exact isFalse (fun h => Except.noConfusion h)
  | ok v =>
    cases b with
    | error f => exact isFalse (fun h => Except.noConfusion h)
    | ok w =>
      exact decidable_of_iff (v = w) ⟨fun h => by rw [h], fun h => by injection h⟩

/-- C2 counterexample: on the all-digit input "90" the duration parser does
not fail at all; the final digit is consumed as the (unknown) unit and the
remaining magnitude 9 is returned, contradicting the claim that a missing
or unknown unit raises InvalidDurationError. -/
theorem parse_duration_unknown_unit_returns_value : parse_duration "90" = .ok 9 := by
  rfl

/-- C2 (amended): the duration parser raises IndexError on the empty string
and propagates the ValueError of int() on a non-numeric magnitude, but on an
unknown or missing unit character with a numeric magnitude it raises nothing
and returns the magnitude unchanged as seconds; no InvalidDurationError
class exists in the code. -/
theorem parse_duration_error_behavior (s : String) :
    (s.data = [] → parse_duration s = .error .indexError) ∧
    (∀ e, s.data ≠ [] → pyInt s.data.dropLast = .error e → parse_duration s = .error e) ∧
    (∀ u v, s.data.getLast? = some u →
      u ≠ 's' → u ≠ 'm' → u ≠ 'h' → u ≠ 'd' →
      pyInt s.data.dropLast = .ok v → parse_duration s = .ok v) := by
  refine ⟨?_, ?_, ?_⟩
  · intro h
    simp [parse_duration, h]
  · intro e hne herr
    obtain ⟨u, hu⟩ : ∃ u, s.data.getLast? = some u := by
      cases h2 : s.data.getLast? with
      | some u => exact ⟨u, rfl⟩
      | none => exact absurd (List.getLast?_eq_none_iff.mp h2) hne
    simp [parse_duration, hu, herr]
  · intro u v hu hs hm hh hd hv
    simp only [parse_duration, hu, hv]
    rw [if_neg hs, if_neg hm, if_neg hh, if_neg hd]

/-- Witness for the amended C2 statement at concrete inputs: the empty
string, the non-numeric "xy", and the unknown-unit "7q". -/
theorem parse_duration_error_behavior_witness :
    parse_duration "" = .error .indexError ∧
    parse_duration "xy" = .error .valueError ∧
    parse_duration "7q" = .ok 7 := by
  refine ⟨(parse_duration_error_behavior "").1 rfl, ?_, ?_⟩
  · exact (parse_duration_error_behavior "xy").2.1 .valueError (by decide) (by rfl)
  · exact (parse_duration_error_behavior "7q").2.2 'q' 7 (by rfl)
      (by decide) (by decide) (by decide) (by decide) (by rfl)

/-- C9 (confirmed): for every string of length at least two consisting of
digits only, the duration parser consumes the final digit as an unrecognized
unit and returns the integer value of the remaining prefix without raising. -/
theorem parse_duration_all_digits (s : String) (hlen : 2 ≤ s.data.length)
    (hdig : ∀ c ∈ s.data, c.isDigit = true) :
    parse_duration s = .ok (digitsVal s.data.dropLast) := by
  obtain ⟨u, hu⟩ : ∃ u, s.data.getLast? = some u := by
    cases h2 : s.data.getLast? with
    | some u => exact ⟨u, rfl⟩
    | none =>
      rw [List.getLast?_eq_none_iff.mp h2] at hlen
      exact absurd hlen (by decide)
  have hud : u.isDigit = true := hdig u (List.mem_of_mem_getLast? hu)
  have hdropne : s.data.dropLast ≠ [] := by
    intro hnil
    have hl := List.length_dropLast s.data
    rw [hnil] at hl
    simp only [List.length_nil] at hl
    omega
  have hdropdig : ∀ c ∈ s.data.dropLast, c.isDigit = true := fun c hc =>
    hdig c ((List.dropLast_sublist s.data).mem hc)
  have hint := pyInt_of_digits hdropne hdropdig
  have hs : u ≠ 's' := fun hEq => by rw [hEq] at hud; exact absurd hud (by decide)
  have hm : u ≠ 'm' := fun hEq => by rw [hEq] at hud; exact absurd hud (by decide)
  have hh : u ≠ 'h' := fun hEq => by rw [hEq] at hud; exact absurd hud (by decide)
  have hd : u ≠ 'd' := fun hEq => by rw [hEq] at hud; exact absurd hud (by decide)
  simp only [parse_duration, hu, hint]
  rw [if_neg hs, if_neg hm, if_neg hh, if_neg hd]

/-- Witness for C9 at the concrete input "90", which parses to 9 seconds. -/
theorem parse_duration_all_digits_witness :
    2 ≤ "90".data.length ∧ parse_duration "90" = .ok 9 := by
  refine ⟨by decide, ?_⟩
  rw [parse_duration_all_digits "90" (by decide) (by decide)]
  rfl

/- Scheduler synchronization: src/openanomaly/pipelines/signals.py. -/

/-- Helper for the Python no-argument str.split(): accumulates the current
word (reversed) and splits on runs of whitespace, discarding empty pieces. -/
def wordsAux (acc : List Char) : List Char → List (List Char)
  | [] => if acc.isEmpty then [] else [acc.reverse]
  | c :: rest =>
    if c.isWhitespace then
      if acc.isEmpty then wordsAux [] rest else acc.reverse :: wordsAux [] rest
    else wordsAux (c :: acc) rest

/-- Python expression.split() with no separator argument. -/
def pySplit (s : String) : List String :=
  (wordsAux [] s.data).map String.mk

/-- Field record of a celery.schedules.crontab object as built by
parse_cron in src/openanomaly/pipelines/signals.py lines 23-29. -/
structure Crontab where
  minute : String
  hour : String
  day_of_month : String
  month_of_year : String
  day_of_week : String
  deriving DecidableEq, Repr

/-- Embedding of parse_cron (signals.py lines 13-31): split the expression
on whitespace; if there are not exactly five parts return None, otherwise
build the crontab from the five fields.  The value validation that the
external celery crontab constructor performs on each field (its exceptions
are caught and also yield None) is library behavior outside this
repository and is modelled as accepting any five fields. -/
def parse_cron (expression : String) : Option Crontab :=
  match pySplit expression with
  | [m, h, dom, moy, dow] => some ⟨m, h, dom, moy, dow⟩
  | _ => none

/-- Fields of the Django Pipeline model
(src/openanomaly/pipelines/models.py) read by the RedBeat sync signal. -/
structure PipelineModel where
  name : String
  enabled : Bool
  forecast_enabled : Bool
  forecast_schedule : String
  anomaly_enabled : Bool
  anomaly_schedule : String
  training_enabled : Bool
  training_schedule : String
  deriving DecidableEq, Repr

/-- A RedBeatSchedulerEntry as constructed in sync_pipeline_to_redbeat. -/
structure RedBeatEntry where
  name : String
  task : String
  schedule : Crontab
  args : List String
  deriving DecidableEq, Repr

/-- External scheduler operations issued by the sync signal: entry.save()
is an upsert keyed by the entry name, and
RedBeatSchedulerEntry.from_key(key).delete() is a keyed delete (a missing
key, KeyError, is swallowed). -/
inductive RedBeatAction where
  | upsert (entry : RedBeatEntry)
  | delete (key : String)
  deriving DecidableEq, Repr

/-- Entry name "pipeline_<name>_<kind>" used for RedBeat upserts. -/
def entryName (n sfx : String) : String :=
  "pipeline_" ++ n ++ "_" ++ sfx

/-- Redis key "redbeat:pipeline_<name>_<kind>" used for RedBeat deletes. -/
def deleteKey (n sfx : String) : String :=
  "redbeat:pipeline_" ++ n ++ "_" ++ sfx

/-- One of the three structurally identical blocks of
sync_pipeline_to_redbeat (signals.py lines 40-63, 65-88, 90-113): when the
master switch and the per-task flag are both set, parse the cron expression
and upsert the entry if it parses (and otherwise do nothing); when the
flags are not both set, delete the key. -/
def kindBlock (master kEnabled : Bool) (n sched sfx task : String) : List RedBeatAction :=
  if master && kEnabled then
    match parse_cron sched with
    | some cr => [.upsert ⟨entryName n sfx, task, cr, [n]⟩]
    | none => []
  else
    [.delete (deleteKey n sfx)]

/-- Embedding of sync_pipeline_to_redbeat (signals.py lines 33-113): the
three per-kind blocks executed in order, returned as the list of scheduler
actions they issue. -/
def sync_pipeline_to_redbeat (p : PipelineModel) : List RedBeatAction :=
  kindBlock p.enabled p.forecast_enabled p.name p.forecast_schedule
      "forecast" "openanomaly.tasks.run_forecast"
    ++ kindBlock p.enabled p.anomaly_enabled p.name p.anomaly_schedule
      "anomaly" "openanomaly.tasks.run_anomaly_check"
    ++ kindBlock p.enabled p.training_enabled p.name p.training_schedule
      "training" "openanomaly.tasks.train_model"

/-- The three scheduled task kinds of a pipeline. -/
inductive TaskKind where
  | forecast
  | anomaly
  | training
  deriving DecidableEq, Repr

def TaskKind.sfx : TaskKind → String
  | .forecast => "forecast"
  | .anomaly => "anomaly"
  | .training => "training"

/-- The celery task identifier registered for each kind. -/
def TaskKind.taskPath : TaskKind → String
  | .forecast => "openanomaly.tasks.run_forecast"
  | .anomaly => "openanomaly.tasks.run_anomaly_check"
  | .training => "openanomaly.tasks.train_model"

def kindEnabled (p : PipelineModel) : TaskKind → Bool
  | .forecast => p.forecast_enabled
  | .anomaly => p.anomaly_enabled
  | .training => p.training_enabled

def kindSchedule (p : PipelineModel) : TaskKind → String
  | .forecast => p.forecast_schedule
  | .anomaly => p.anomaly_schedule
  | .training => p.training_schedule

def syncBlock (p : PipelineModel) (k : TaskKind) : List RedBeatAction :=
  kindBlock p.enabled (kindEnabled p k) p.name (kindSchedule p k) k.sfx k.taskPath

theorem sync_eq_blocks (p : PipelineModel) :
    sync_pipeline_to_redbeat p =
      syncBlock p .forecast ++ syncBlock p .anomaly ++ syncBlock p .training := rfl

theorem mem_sync_iff (p : PipelineModel) (a : RedBeatAction) :
    a ∈ sync_pipeline_to_redbeat p ↔
      a ∈ syncBlock p .forecast ∨ a ∈ syncBlock p .anomaly ∨ a ∈ syncBlock p .training := by
  rw [sync_eq_blocks]
  simp [List.mem_append, or_assoc]

theorem upsert_mem_kindBlock_iff (master kEnab : Bool) (n sched sfx task : String)
    (e : RedBeatEntry) :
    RedBeatAction.upsert e ∈ kindBlock master kEnab n sched sfx task ↔
      (master = true ∧ kEnab = true ∧
        ∃ cr, parse_cron sched = some cr ∧ e = ⟨entryName n sfx, task, cr, [n]⟩) := by
  unfold kindBlock
  cases hmk : master && kEnab with
  | true =>
    rw [Bool.and_eq_true] at hmk
    cases hc : parse_cron sched with
    | some cr => simp [hmk, hc, eq_comm]
    | none => simp [hmk, hc]
  | false =>
    have hno : ¬(master = true ∧ kEnab = true) := by
      rw [← Bool.and_eq_true, hmk]; simp
    constructor
    · intro hmem
      exact absurd (List.mem_singleton.mp hmem) (by intro hEq; cases hEq)
    · rintro ⟨h1, h2, -⟩
      exact absurd ⟨h1, h2⟩ hno

theorem delete_mem_kindBlock_iff (master kEnab : Bool) (n sched sfx task : String)
    (key : String) :
    RedBeatAction.delete key ∈ kindBlock master kEnab n sched sfx task ↔
      (¬(master = true ∧ kEnab = true) ∧ key = deleteKey n sfx) := by
  unfold kindBlock
  cases hmk : master && kEnab with
  | true =>
    rw [Bool.and_eq_true] at hmk
    cases hc : parse_cron sched with
    | some cr => simp [hmk, hc]
    | none => simp [hmk, hc]
  | false =>
    have hno : ¬(master = true ∧ kEnab = true) := by
      rw [← Bool.and_eq_true, hmk]; simp
    simp [hno]

theorem append_ne_of_ne_right {s t : String} (a : String) (h : s ≠ t) :
    a ++ s ≠ a ++ t := by
  intro hEq
  apply h
  have hd := congrArg String.data hEq
  rw [String.data_append, String.data_append] at hd
  exact String.ext (List.append_cancel_left hd)

theorem entryName_inj {n s t : String} (h : entryName n s = entryName n t) : s = t := by
  by_contra hne
  exact append_ne_of_ne_right ("pipeline_" ++ n ++ "_") hne h

theorem deleteKey_inj {n s t : String} (h : deleteKey n s = deleteKey n t) : s = t := by
  by_contra hne
  exact append_ne_of_ne_right ("redbeat:pipeline_" ++ n ++ "_") hne h

theorem TaskKind.sfx_inj : ∀ {k k' : TaskKind}, k.sfx = k'.sfx → k = k' := by
  intro k k'
  cases k <;> cases k' <;> intro h <;> first | rfl | exact absurd h (by decide)

theorem upsert_mem_syncBlock {p : PipelineModel} {k k' : TaskKind} {e : RedBeatEntry}
    (hmem : RedBeatAction.upsert e ∈ syncBlock p k')
    (hname : e.name = entryName p.name k.sfx) :
    p.enabled = true ∧ kindEnabled p k = true ∧
      ∃ cr, parse_cron (kindSchedule p k) = some cr ∧
        e = ⟨entryName p.name k.sfx, k.taskPath, cr, [p.name]⟩ := by
  obtain ⟨hm, hk, cr, hcr, hEq⟩ :=
    (upsert_mem_kindBlock_iff p.enabled (kindEnabled p k') p.name
      (kindSchedule p k') k'.sfx k'.taskPath e).mp hmem
  have hname' : entryName p.name k'.sfx = entryName p.name k.sfx := by
    rw [hEq] at hname
    exact hname
  have hkk : k' = k := TaskKind.sfx_inj (entryName_inj hname')
  subst hkk
  exact ⟨hm, hk, cr, hcr, hEq⟩

/-- C1 (amended): for every pipeline and task kind, reconciliation upserts
the entry named "pipeline_<name>_<kind>" carrying the task identifier of
the kind and args [pipeline.name] exactly when the master switch and the
per-kind flag are both true and the cron expression parses, and it deletes
the RedBeat key for that kind exactly when the master switch and the
per-kind flag are not both true.  When both flags are set but the cron
expression fails to parse, neither an upsert nor a delete is issued for
that key (the original claim asserted a delete in every non-upsert case). -/
theorem sync_schedule_characterization (p : PipelineModel) (k : TaskKind) :
    ((∃ e : RedBeatEntry, RedBeatAction.upsert e ∈ sync_pipeline_to_redbeat p ∧
        e.name = entryName p.name k.sfx) ↔
      (p.enabled = true ∧ kindEnabled p k = true ∧
        (parse_cron (kindSchedule p k)).isSome = true)) ∧
    (RedBeatAction.delete (deleteKey p.name k.sfx) ∈ sync_pipeline_to_redbeat p ↔
      ¬(p.enabled = true ∧ kindEnabled p k = true)) ∧
    (∀ e : RedBeatEntry, RedBeatAction.upsert e ∈ sync_pipeline_to_redbeat p →
      e.name = entryName p.name k.sfx →
      e.task = k.taskPath ∧ e.args = [p.name] ∧
        parse_cron (kindSchedule p k) = some e.schedule) := by
  refine ⟨⟨?_, ?_⟩, ⟨?_, ?_⟩, ?_⟩
  · rintro ⟨e, hmem, hname⟩
    rcases (mem_sync_iff p _).mp hmem with h | h | h <;>
    · obtain ⟨hm, hk, cr, hcr, -⟩ := upsert_mem_syncBlock h hname
      exact ⟨hm, hk, by rw [hcr]; rfl⟩
  · rintro ⟨hm, hk, hsome⟩
    obtain ⟨cr, hcr⟩ := Option.isSome_iff_exists.mp hsome
    refine ⟨⟨entryName p.name k.sfx, k.taskPath, cr, [p.name]⟩, ?_, rfl⟩
    apply (mem_sync_iff p _).mpr
    cases k with
    | forecast =>
      exact Or.inl ((upsert_mem_kindBlock_iff p.enabled p.forecast_enabled p.name
        p.forecast_schedule "forecast" "openanomaly.tasks.run_forecast" _).mpr
        ⟨hm, hk, cr, hcr, rfl⟩)
    | anomaly =>
      exact Or.inr (Or.inl ((upsert_mem_kindBlock_iff p.enabled p.anomaly_enabled p.name
        p.anomaly_schedule "anomaly" "openanomaly.tasks.run_anomaly_check" _).mpr
        ⟨hm, hk, cr, hcr, rfl⟩))
    | training =>
      exact Or.inr (Or.inr ((upsert_mem_kindBlock_iff p.enabled p.training_enabled p.name
        p.training_schedule "training" "openanomaly.tasks.train_model" _).mpr
        ⟨hm, hk, cr, hcr, rfl⟩))
  · intro hmem
    rcases (mem_sync_iff p _).mp hmem with h | h | h <;>
    · obtain ⟨hno, hkey⟩ :=
        (delete_mem_kindBlock_iff p.enabled _ p.name _ _ _ _).mp h
      have hkk := TaskKind.sfx_inj (deleteKey_inj hkey)
      subst hkk
      exact hno
  · intro hno
    apply (mem_sync_iff p _).mpr
    cases k with
    | forecast =>
      exact Or.inl ((delete_mem_kindBlock_iff p.enabled p.forecast_enabled p.name
        p.forecast_schedule "forecast" "openanomaly.tasks.run_forecast" _).mpr ⟨hno, rfl⟩)
    | anomaly =>
      exact Or.inr (Or.inl ((delete_mem_kindBlock_iff p.enabled p.anomaly_enabled p.name
        p.anomaly_schedule "anomaly" "openanomaly.tasks.run_anomaly_check" _).mpr ⟨hno, rfl⟩))
    | training =>
      exact Or.inr (Or.inr ((delete_mem_kindBlock_iff p.enabled p.training_enabled p.name
        p.training_schedule "training" "openanomaly.tasks.train_model" _).mpr ⟨hno, rfl⟩))
  · intro e hmem hname
    rcases (mem_sync_iff p _).mp hmem with h | h | h <;>
    · obtain ⟨hm, hk, cr, hcr, hEq⟩ := upsert_mem_syncBlock h hname
      subst hEq
      exact ⟨rfl, rfl, hcr⟩

/-- A pipeline that is enabled, has the forecast task enabled, but carries
a forecast cron expression with only four fields, which parse_cron
rejects. -/
def cronFailPipeline : PipelineModel :=
  { name := "p0"
    enabled := true
    forecast_enabled := true
    forecast_schedule := "* * * *"
    anomaly_enabled := false
    anomaly_schedule := "*/1 * * * *"
    training_enabled := false
    training_schedule := "0 */6 * * *" }

/-- C1 counterexample: with the pipeline enabled and the forecast flag
true but an unparsable forecast cron, the sync issues neither an upsert
nor a delete for the forecast key; the full action list contains only the
deletes of the two disabled kinds, refuting the claim that every
non-upsert case deletes the key. -/
theorem sync_missing_delete_on_unparsable_cron :
    cronFailPipeline.enabled = true ∧
    cronFailPipeline.forecast_enabled = true ∧
    parse_cron cronFailPipeline.forecast_schedule = none ∧
    sync_pipeline_to_redbeat cronFailPipeline =
      [.delete (deleteKey "p0" "anomaly"), .delete (deleteKey "p0" "training")] ∧
    RedBeatAction.delete (deleteKey "p0" "forecast") ∉
      sync_pipeline_to_redbeat cronFailPipeline := by
  refine ⟨rfl, rfl, rfl, rfl, ?_⟩
  decide

/-- A pipeline whose master switch is off while the forecast flag is on. -/
def masterOffPipeline : PipelineModel :=
  { name := "off"
    enabled := false
    forecast_enabled := true
    forecast_schedule := "*/5 * * * *"
    anomaly_enabled := false
    anomaly_schedule := "*/1 * * * *"
    training_enabled := false
    training_schedule := "0 */6 * * *" }

/-- A fully enabled pipeline with a parsable forecast cron. -/
def enabledPipeline : PipelineModel :=
  { name := "web"
    enabled := true
    forecast_enabled := true
    forecast_schedule := "*/5 * * * *"
    anomaly_enabled := false
    anomaly_schedule := "*/1 * * * *"
    training_enabled := false
    training_schedule := "0 */6 * * *" }

/-- The forecast entry that the sync upserts for enabledPipeline. -/
def webForecastEntry : RedBeatEntry :=
  { name := entryName "web" "forecast"
    task := "openanomaly.tasks.run_forecast"
    schedule := ⟨"*/5", "*", "*", "*", "*"⟩
    args := ["web"] }

/-- Witness for the amended C1 statement at concrete pipelines: disabling
the master switch with the forecast flag on yields a delete of the
forecast key, and the upserted entry of an enabled pipeline carries the
forecast task identifier, args [name] and the parsed cron. -/
theorem sync_schedule_characterization_witness :
    RedBeatAction.delete (deleteKey "off" "forecast") ∈
      sync_pipeline_to_redbeat masterOffPipeline ∧
    (webForecastEntry.task = TaskKind.taskPath .forecast ∧
      webForecastEntry.args = ["web"] ∧
      parse_cron (kindSchedule enabledPipeline .forecast) = some webForecastEntry.schedule) := by
  constructor
  · exact (sync_schedule_characterization masterOffPipeline .forecast).2.1.mpr (by decide)
  · exact (sync_schedule_characterization enabledPipeline .forecast).2.2
      webForecastEntry (by decide) (by decide)

/- Metric identifier codec: src/openanomaly/adapters/tsdb/prometheus.py.
Strings are worked on as character lists; a Python dict of labels is
represented by its item list, which for a dict is duplicate-free and which
Python sorted() puts into ascending key order. -/

/-- Lexicographic code.point comparison of character lists; models the
Python < on strings used by sorted(). -/
def ltCharList : List Char → List Char → Bool
  | [], [] => false
  | [], _ :: _ => true
  | _ :: _, [] => false
  | a :: as, b :: bs =>
    if a < b then true
    else if b < a then false
    else ltCharList as bs

/-- Key order on label items, used to model sorted(metric.items()); ties on
the key cannot occur for dict items. -/
def labelItemLe (a b : List Char × List Char) : Prop :=
  ltCharList a.1 b.1 = true ∨ a.1 = b.1

instance : DecidableRel labelItemLe := fun a b =>
  if h : ltCharList a.1 b.1 = true then isTrue (Or.inl h)
  else if h2 : a.1 = b.1 then isTrue (Or.inr h2)
  else isFalse (fun hor => hor.elim h h2)

/-- Python sorted(metric.items()). -/
def sortLabelItems (ls : List (List Char × List Char)) : List (List Char × List Char) :=
  List.insertionSort labelItemLe ls

/-- One rendered label pair, the f-string k="v". -/
def labelPairChars (k v : List Char) : List Char :=
  k ++ '=' :: '"' :: (v ++ ['"'])

/-- Embedding of the identifier encoding in PrometheusAdapter.query_range
(prometheus.py lines 112-113):
  labels_str = ",".join(k="v" for sorted items)
  unique_id = name{labels_str} if labels_str else name -/
def encodeSeriesId (name : List Char) (labels : List (List Char × List Char)) : List Char :=
  let labelsStr :=
    List.intercalate [','] ((sortLabelItems labels).map fun kv => labelPairChars kv.1 kv.2)
  if labelsStr.isEmpty then name else name ++ '\x7b' :: (labelsStr ++ ['\x7d'])

/-- Split a character list at the first occurrence of a character; models
the Python str.split(sep, 1) two-way split.  The second component is none
when the character does not occur. -/
def splitFirst (c : Char) : List Char → List Char × Option (List Char)
  | [] => ([], none)
  | a :: rest =>
    if a = c then ([], some rest)
    else
      let r := splitFirst c rest
      (a :: r.1, r.2)

/-- Python str.strip() with the double-quote character, as applied to label
values by the decoder. -/
def stripQuotesChars (l : List Char) : List Char :=
  ((l.dropWhile (· = '"')).reverse.dropWhile (· = '"')).reverse

/-- Assignment labels[k] = v on the item-list representation of a dict:
replace the binding if the key is present, otherwise append. -/
def insertLabel (k v : List Char) :
    List (List Char × List Char) → List (List Char × List Char)
  | [] => [(k, v)]
  | (k', v') :: rest =>
    if k' = k then (k', v) :: rest else (k', v') :: insertLabel k v rest

/-- Processing of one label pair by the decoder in PrometheusAdapter.write
(prometheus.py lines 160-163): pairs without an equals sign are skipped,
otherwise the pair splits at the first equals sign and the stripped key and
the stripped, unquoted value are assigned into the label dict. -/
def decodeStep (acc : List (List Char × List Char)) (pair : List Char) :
    List (List Char × List Char) :=
  if '=' ∈ pair then
    match splitFirst '=' pair with
    | (k, some v) => insertLabel (trimWS k) (stripQuotesChars (trimWS v)) acc
    | (_, none) => acc
  else acc

/-- Embedding of the identifier decoding in PrometheusAdapter.write
(prometheus.py lines 153-163): when the identifier contains an opening
brace and ends with a closing brace, split the body at the first opening
brace into name and label part, split the label part on commas and process
each pair; otherwise the whole identifier is the bare metric name.  The
none arm of the inner match is unreachable because the last character of
the identifier is a closing brace. -/
def decodeSeriesId (raw : List Char) : List Char × List (List Char × List Char) :=
  if '\x7b' ∈ raw ∧ raw.getLast? = some '\x7d' then
    match splitFirst '\x7b' raw.dropLast with
    | (namePart, some labelsPart) =>
      (namePart, (labelsPart.splitOn ',').foldl decodeStep [])
    | (_, none) => (raw, [])
  else (raw, [])

/-- C3 counterexample: a label value containing a comma breaks the
round-trip; encoding name a with label k = "x,y" and decoding the result
yields the label k = "x", not the original map. -/
theorem decode_encode_comma_breaks :
    decodeSeriesId (encodeSeriesId "a".toList [("k".toList, "x,y".toList)]) ≠
      ("a".toList, [("k".toList, "x,y".toList)]) := by
  decide

theorem ltCharList_irrefl : ∀ l : List Char, ltCharList l l = false
  | [] => rfl
  | a :: as => by
    unfold ltCharList
    rw [if_neg (lt_irrefl a), if_neg (lt_irrefl a)]
    exact ltCharList_irrefl as

theorem ne_of_ltCharList {x y : List Char} (h : ltCharList x y = true) : x ≠ y := by
  intro hEq
  subst hEq
  rw [ltCharList_irrefl] at h
  exact Bool.noConfusion h

theorem dropWhile_of_head?_false {p : Char → Bool} {l : List Char} {c : Char}
    (hh : l.head? = some c) (hc : p c = false) : l.dropWhile p = l := by
  cases l with
  | nil => cases hh
  | cons a t =>
    have ha : a = c := by injection hh
    subst ha
    simp [List.dropWhile_cons, hc]

theorem trimWS_of_edges {l : List Char} {c1 c2 : Char}
    (h1 : l.head? = some c1) (hw1 : c1.isWhitespace = false)
    (h2 : l.getLast? = some c2) (hw2 : c2.isWhitespace = false) : trimWS l = l := by
  unfold trimWS
  rw [dropWhile_of_head?_false h1 hw1]
  rw [dropWhile_of_head?_false (by rw [List.head?_reverse]; exact h2) hw2]
  exact List.reverse_reverse l

theorem stripQuotes_quoted {v : List Char}
    (hh : v.head? ≠ some '"') (hl : v.getLast? ≠ some '"') :
    stripQuotesChars ('"' :: (v ++ ['"'])) = v := by
  cases v with
  | nil => rfl
  | cons a t =>
    have ha : a ≠ '"' := fun hEq => hh (by rw [hEq]; rfl)
    obtain ⟨b, hb⟩ : ∃ b, (a :: t).getLast? = some b := by
      cases h : (a :: t).getLast? with
      | some b => exact ⟨b, rfl⟩
      | none => exact absurd (List.getLast?_eq_none_iff.mp h) (by simp)
    have hbne : b ≠ '"' := fun hEq => hl (by rw [hb, hEq])
    have d1 : ∀ X : List Char, ('"' :: X).dropWhile (· = '"') = X.dropWhile (· = '"') := by
      intro X
      simp [List.dropWhile_cons]
    have d2 : ((a :: t) ++ ['"']).dropWhile (· = '"') = (a :: t) ++ ['"'] := by
      simp [List.dropWhile_cons, ha]
    have d3 : ((a :: t).reverse).dropWhile (· = '"') = (a :: t).reverse :=
      dropWhile_of_head?_false (by rw [List.head?_reverse]; exact hb) (by simp [hbne])
    unfold stripQuotesChars
    rw [d1, d2, List.reverse_concat, d1, d3, List.reverse_reverse]

theorem splitFirst_append {c : Char} :
    ∀ {pre : List Char} (post : List Char), c ∉ pre →
      splitFirst c (pre ++ c :: post) = (pre, some post)
  | [], post, _ => by simp [splitFirst]
  | a :: pre', post, h => by
    have ha : a ≠ c := fun hEq => h (hEq ▸ List.mem_cons_self a pre')
    have ih := splitFirst_append post (fun hc => h (List.mem_cons_of_mem a hc))
    simp [splitFirst, ha, ih]

theorem insertLabel_append {k v : List Char} :
    ∀ {acc : List (List Char × List Char)}, (∀ kv ∈ acc, kv.1 ≠ k) →
      insertLabel k v acc = acc ++ [(k, v)]
  | [], _ => rfl
  | (k', v') :: rest, h => by
    have hk' : k' ≠ k := h (k', v') (List.mem_cons_self _ _)
    have ih := @insertLabel_append k v rest (fun kv hkv => h kv (List.mem_cons_of_mem _ hkv))
    simp [insertLabel, hk', ih]

theorem decodeStep_pair {k v : List Char} {acc : List (List Char × List Char)}
    (hkeq : '=' ∉ k) (hktrim : trimWS k = k)
    (hvh : v.head? ≠ some '"') (hvl : v.getLast? ≠ some '"')
    (hacc : ∀ kv ∈ acc, kv.1 ≠ k) :
    decodeStep acc (labelPairChars k v) = acc ++ [(k, v)] := by
  have hmem : '=' ∈ labelPairChars k v := by
    unfold labelPairChars
    exact List.mem_append.mpr (Or.inr (List.mem_cons_self _ _))
  have hsplit : splitFirst '=' (labelPairChars k v) = (k, some ('"' :: (v ++ ['"']))) :=
    splitFirst_append ('"' :: (v ++ ['"'])) hkeq
  have htrimv : trimWS ('"' :: (v ++ ['"'])) = '"' :: (v ++ ['"']) :=
    @trimWS_of_edges ('"' :: (v ++ ['"'])) '"' '"' rfl (by decide)
      (List.getLast?_concat ('"' :: v)) (by decide)
  unfold decodeStep
  rw [if_pos hmem, hsplit]
  show insertLabel (trimWS k) (stripQuotesChars (trimWS ('"' :: (v ++ ['"'])))) acc =
    acc ++ [(k, v)]
  rw [hktrim, htrimv, stripQuotes_quoted hvh hvl]
  exact insertLabel_append hacc

theorem decode_fold :
    ∀ (items : List (List Char × List Char)) (acc : List (List Char × List Char)),
      (∀ kv ∈ items, '=' ∉ kv.1 ∧ trimWS kv.1 = kv.1) →
      (∀ kv ∈ items, kv.2.head? ≠ some '"' ∧ kv.2.getLast? ≠ some '"') →
      items.Pairwise (fun a b => a.1 ≠ b.1) →
      (∀ kv ∈ items, ∀ kv' ∈ acc, kv'.1 ≠ kv.1) →
      (items.map fun kv => labelPairChars kv.1 kv.2).foldl decodeStep acc = acc ++ items
  | [], acc, _, _, _, _ => by simp
  | (k, v) :: rest, acc, hk, hv, hnd, hdisj => by
    have hstep : decodeStep acc (labelPairChars k v) = acc ++ [(k, v)] :=
      decodeStep_pair (hk (k, v) (List.mem_cons_self _ _)).1
        (hk (k, v) (List.mem_cons_self _ _)).2
        (hv (k, v) (List.mem_cons_self _ _)).1
        (hv (k, v) (List.mem_cons_self _ _)).2
        (fun kv' hkv' => hdisj (k, v) (List.mem_cons_self _ _) kv' hkv')
    have hhead := (List.pairwise_cons.mp hnd).1
    have ih := decode_fold rest (acc ++ [(k, v)])
      (fun kv hkv => hk kv (List.mem_cons_of_mem _ hkv))
      (fun kv hkv => hv kv (List.mem_cons_of_mem _ hkv))
      (List.pairwise_cons.mp hnd).2
      (fun kv hkv kv' hkv' => by
        rcases List.mem_append.mp hkv' with hin | hin
        · exact hdisj kv (List.mem_cons_of_mem _ hkv) kv' hin
        · rw [List.mem_singleton.mp hin]
          exact hhead kv hkv)
    simp only [List.map_cons, List.foldl_cons, hstep, ih, List.append_assoc,
      List.singleton_append]

theorem decodeSeriesId_braced (name S : List Char) (hname : '\x7b' ∉ name) :
    decodeSeriesId (name ++ '\x7b' :: (S ++ ['\x7d'])) =
      (name, (S.splitOn ',').foldl decodeStep []) := by
  unfold decodeSeriesId
  have hgrp : name ++ '\x7b' :: (S ++ ['\x7d']) = (name ++ '\x7b' :: S) ++ ['\x7d'] := by
    simp
  rw [hgrp]
  rw [if_pos ⟨List.mem_append.mpr (Or.inl (List.mem_append.mpr
      (Or.inr (List.mem_cons_self _ _)))), List.getLast?_concat _⟩]
  rw [List.dropLast_concat]
  rw [splitFirst_append S hname]

/-- C3 (amended): the decode of an encode is the identity on series
identifiers whose metric name contains no opening brace and whose label
map, given as its sorted item list, has keys free of commas, equals signs
and surrounding whitespace and values free of commas and of leading or
trailing double quotes; on values containing a comma (and similar escape
material, which the codec does not handle) the round-trip loses data. -/
theorem decode_encode_roundtrip (name : List Char) (labels : List (List Char × List Char))
    (hname : '\x7b' ∉ name)
    (hsorted : labels.Pairwise (fun a b => ltCharList a.1 b.1 = true))
    (hkeys : ∀ kv ∈ labels, ',' ∉ kv.1 ∧ '=' ∉ kv.1 ∧ trimWS kv.1 = kv.1)
    (hvals : ∀ kv ∈ labels, ',' ∉ kv.2 ∧ kv.2.head? ≠ some '"' ∧ kv.2.getLast? ≠ some '"') :
    decodeSeriesId (encodeSeriesId name labels) = (name, labels) := by
  have hsorteq : sortLabelItems labels = labels :=
    List.Sorted.insertionSort_eq (hsorted.imp fun h => Or.inl h)
  have hnd : labels.Pairwise (fun a b => a.1 ≠ b.1) :=
    hsorted.imp fun h => ne_of_ltCharList h
  cases labels with
  | nil =>
    have henc : encodeSeriesId name [] = name := rfl
    rw [henc]
    unfold decodeSeriesId
    rw [if_neg]
    intro hcond
    exact hname hcond.1
  | cons l0 ls =>
    have hcomma : ∀ p ∈ (l0 :: ls).map fun kv => labelPairChars kv.1 kv.2, ',' ∉ p := by
      intro p hp
      obtain ⟨kv, hkv, hEq⟩ := List.mem_map.mp hp
      subst hEq
      intro hc
      rcases List.mem_append.mp hc with h | h
      · exact (hkeys kv hkv).1 h
      · simp only [List.mem_cons, List.mem_append, List.mem_singleton] at h
        rcases h with h | h | h | h
        · exact absurd h (by decide)
        · exact absurd h (by decide)
        · exact (hvals kv hkv).1 h
        · exact absurd h (by decide)
    have hpairs_ne : ((l0 :: ls).map fun kv => labelPairChars kv.1 kv.2) ≠ [] := by simp
    have hsplitOn :
        (List.intercalate [','] ((l0 :: ls).map fun kv => labelPairChars kv.1 kv.2)).splitOn ','
          = (l0 :: ls).map fun kv => labelPairChars kv.1 kv.2 :=
      List.splitOn_intercalate _ ',' hcomma hpairs_ne
    have hSne :
        (List.intercalate [','] ((l0 :: ls).map fun kv => labelPairChars kv.1 kv.2)).isEmpty
          = false := by
      cases hempty : List.intercalate [','] ((l0 :: ls).map fun kv => labelPairChars kv.1 kv.2) with
      | cons c t => rfl
      | nil =>
        exfalso
        rw [hempty] at hsplitOn
        have hpairs : ((l0 :: ls).map fun kv => labelPairChars kv.1 kv.2) = [[]] := by
          rw [← hsplitOn]
          rfl
        rw [List.map_cons] at hpairs
        have h0 : labelPairChars l0.1 l0.2 = [] := (List.cons_eq_cons.mp hpairs).1
        simp [labelPairChars] at h0
    have henc : encodeSeriesId name (l0 :: ls) =
        name ++ '\x7b' ::
          (List.intercalate [','] ((l0 :: ls).map fun kv => labelPairChars kv.1 kv.2)
            ++ ['\x7d']) := by
      unfold encodeSeriesId
      rw [hsorteq, if_neg (by rw [hSne]; exact Bool.noConfusion)]
    rw [henc, decodeSeriesId_braced _ _ hname, hsplitOn]
    have hfold := decode_fold (l0 :: ls) []
      (fun kv hkv => ⟨(hkeys kv hkv).2.1, (hkeys kv hkv).2.2⟩)
      (fun kv hkv => ⟨(hvals kv hkv).2.1, (hvals kv hkv).2.2⟩)
      hnd
      (fun kv _ kv' hkv' => absurd hkv' (List.not_mem_nil kv'))
    rw [hfold]
    rfl

/-- Witness for the amended C3 statement at a concrete identifier: the
metric up with the sorted labels instance = "a:9090" and job = "node"
round-trips exactly. -/
theorem decode_encode_roundtrip_witness :
    decodeSeriesId (encodeSeriesId "up".toList
        [("instance".toList, "a:9090".toList), ("job".toList, "node".toList)]) =
      ("up".toList, [("instance".toList, "a:9090".toList), ("job".toList, "node".toList)]) :=
  decode_encode_roundtrip _ _ (by decide) (by decide) (by decide) (by decide)

/- Pipeline configuration ( src/openanomaly/common/dataclasses.py, matched
by src/openanomaly/core/domain/pipeline.py).  Parameter dicts are carried
as opaque association lists; floats are carried as rationals. -/

structure ModelConfig where
  type : String
  id : Option String
  endpoint : Option String
  serialization_format : String
  parameters : List (String × String)
  deriving DecidableEq, Repr

structure OutputConfig where
  write_forecast : Bool
  write_anomaly_score : Bool
  metric_prefix : String
  deriving DecidableEq, Repr

structure TrainingConfig where
  enabled : Bool
  schedule : String
  window : String
  endpoint : Option String
  parameters : List (String × String)
  deriving DecidableEq, Repr

structure AnomalyConfig where
  technique : String
  confidence_level : ℚ
  threshold : ℚ
  deriving DecidableEq, Repr

structure Pipeline where
  name : String
  query : String
  description : String
  enabled : Bool
  step : String
  context_window : String
  prediction_horizon : String
  mode : String
  forecast_schedule : String
  anomaly_schedule : String
  series_type : String
  covariates : List (String × String)
  model : ModelConfig
  training : Option TrainingConfig
  anomaly : AnomalyConfig
  output : OutputConfig
  deriving DecidableEq, Repr

/-- One row of the tabular contract shared by the ports: the DataFrame
columns unique_id, ds, y.  Timestamps are carried in seconds. -/
structure TSRow where
  unique_id : String
  ds : Int
  y : ℚ
  deriving DecidableEq, Repr

/-- The ForecastRequest dataclass (common/dataclasses.py lines 42-48);
it carries no validation of prediction_length. -/
structure ForecastRequest where
  prediction_length : Int
  quantiles : List ℚ
  parameters : List (String × String)
  deriving DecidableEq, Repr

/-- One row of a forecast DataFrame: the timestamp column ds plus the
remaining cells keyed by column name. -/
structure ForecastRow where
  ds : Int
  cells : List (String × ℚ)
  deriving DecidableEq, Repr

/-- A forecast DataFrame: its column list and its rows. -/
structure ForecastFrame where
  columns : List String
  rows : List ForecastRow
  deriving DecidableEq, Repr

/-- The fixed default quantile set of the forecast request
(inference.py line 118). -/
def defaultQuantiles : List ℚ := [0.1, 0.5, 0.9, 0.95, 0.99]

/-- Embedding of InferenceLoop.generate_forecast
(src/openanomaly/pipelines/inference.py lines 87-130; the same steps form
run_pipeline in core/services/inference_loop.py lines 44-97).  The
time-series fetch is supplied as context_df (the query_range port result
for the window) and the model port predict as a function argument.
prediction_length is int(horizon_seconds / step_seconds): Python float
division then truncation toward zero, modelled by Int.div after an
explicit zero check (Python would raise ZeroDivisionError).  No row-count
check beyond emptiness and no lower bound on prediction_length exist in
the code. -/
def generate_forecast (pipeline : Pipeline) (context_df : List TSRow)
    (predict : List TSRow → ForecastRequest → ForecastFrame) :
    Except PyError ForecastFrame :=
  match parse_duration pipeline.context_window with
  | .error e => .error e
  | .ok _window_seconds =>
    if context_df.isEmpty then .ok ⟨[], []⟩
    else
      match parse_duration pipeline.prediction_horizon with
      | .error e => .error e
      | .ok horizon_seconds =>
        match parse_duration pipeline.step with
        | .error e => .error e
        | .ok step_seconds =>
          if step_seconds = 0 then .error .zeroDivisionError
          else
            let req : ForecastRequest :=
              ⟨Int.tdiv horizon_seconds step_seconds, defaultQuantiles,
                pipeline.model.parameters⟩
            let forecast_df := predict context_df req
            if forecast_df.rows.isEmpty then .ok ⟨[], []⟩ else .ok forecast_df

/-- C4 (amended): whenever the three duration fields parse, the step is
non-zero and the context fetch is non-empty, the forecast request handed
to the model port carries prediction_length = horizon div step (truncated
division) and the default quantile set; no lower-bound check on the value
exists, so no configuration error is possible at this point. -/
theorem generate_forecast_request (p : Pipeline) (ctx : List TSRow)
    (predict : List TSRow → ForecastRequest → ForecastFrame)
    (w h st : Int)
    (hw : parse_duration p.context_window = .ok w)
    (hh : parse_duration p.prediction_horizon = .ok h)
    (hs : parse_duration p.step = .ok st)
    (hctx : ctx ≠ []) (hst : st ≠ 0) :
    generate_forecast p ctx predict =
      (if (predict ctx ⟨Int.tdiv h st, defaultQuantiles, p.model.parameters⟩).rows.isEmpty
        then .ok ⟨[], []⟩
        else .ok (predict ctx ⟨Int.tdiv h st, defaultQuantiles, p.model.parameters⟩)) := by
  obtain ⟨a, t, rfl⟩ : ∃ a t, ctx = a :: t := by
    cases ctx with
    | nil => exact absurd rfl hctx
    | cons a t => exact ⟨a, t, rfl⟩
  unfold generate_forecast
  simp only [hw, hh, hs, List.isEmpty_cons, Bool.false_eq_true, if_false, if_neg hst]

def localModelConfig : ModelConfig :=
  { type := "local"
    id := some "amazon/chronos-t5-small"
    endpoint := none
    serialization_format := "json"
    parameters := [] }

def defaultAnomalyConfig : AnomalyConfig :=
  { technique := "confidence_interval"
    confidence_level := 0.95
    threshold := 3 }

def defaultOutputConfig : OutputConfig :=
  { write_forecast := true
    write_anomaly_score := true
    metric_prefix := "openanomaly_" }

/-- The scenario pipeline of the spec: query up, step 1m, context window
1h, prediction horizon 15m. -/
def scnPipeline : Pipeline :=
  { name := "web"
    query := "up"
    description := ""
    enabled := true
    step := "1m"
    context_window := "1h"
    prediction_horizon := "15m"
    mode := "forecast_and_anomaly"
    forecast_schedule := "*/5 * * * *"
    anomaly_schedule := "*/1 * * * *"
    series_type := "univariate"
    covariates := []
    model := localModelConfig
    training := none
    anomaly := defaultAnomalyConfig
    output := defaultOutputConfig }

/-- The scenario pipeline with a prediction horizon shorter than the step,
so the truncated division yields 0. -/
def shortHorizonPipeline : Pipeline :=
  { scnPipeline with prediction_horizon := "30s" }

/-- A model-port probe whose result records the request it received and
the number of rows it was given: the first output row carries
prediction_length as its timestamp, the second the context length. -/
def probePredict (df : List TSRow) (req : ForecastRequest) : ForecastFrame :=
  ⟨["probe"], [⟨req.prediction_length, []⟩, ⟨Int.ofNat df.length, []⟩]⟩

/-- C4 counterexample: with step 1m and prediction horizon 30s the
computed prediction_length is int(30/60) = 0, yet no configuration error
is raised: the request is built with prediction_length 0, the model port
is invoked, and the cycle returns its result normally. -/
theorem generate_forecast_no_min_length_check :
    generate_forecast shortHorizonPipeline [⟨"up", 0, 1⟩] probePredict =
      .ok ⟨["probe"], [⟨0, []⟩, ⟨1, []⟩]⟩ := by
  rfl

/-- Witness for the amended C4 statement on the scenario pipeline: the
durations parse to 3600, 900 and 60 seconds and the model request carries
prediction_length 15. -/
theorem generate_forecast_request_witness :
    parse_duration "15m" = .ok 900 ∧ parse_duration "1m" = .ok 60 ∧
    generate_forecast scnPipeline [⟨"up", 0, 1⟩] probePredict =
      .ok ⟨["probe"], [⟨15, []⟩, ⟨1, []⟩]⟩ := by
  refine ⟨rfl, rfl, ?_⟩
  rw [generate_forecast_request scnPipeline [⟨"up", 0, 1⟩] probePredict 3600 900 60
    rfl rfl rfl (by decide) (by decide)]
  rfl

/- Chronos adapter, V1 (T5) path:
src/openanomaly/common/adapters/models/chronos/adapter.py lines 81-120. -/

/-- The DataFrame built at the end of the V1 path: the column dict
{"unique_id", "ds", "mean", "q_0.1", "q_0.5", "q_0.9"} with one value list
per column. -/
structure ChronosV1Frame where
  unique_id : String
  ds : List Int
  mean : List ℚ
  quantileCols : List (String × List ℚ)
  deriving DecidableEq, Repr

/-- Column names of the constructed DataFrame, in dict order. -/
def ChronosV1Frame.columns (f : ChronosV1Frame) : List String :=
  "unique_id" :: "ds" :: "mean" :: f.quantileCols.map Prod.fst

/-- df.sort_values("ds"). -/
def sortByDs (df : List TSRow) : List TSRow :=
  List.insertionSort (fun a b => a.ds ≤ b.ds) df

/-- Models freq = pd.infer_freq(df["ds"]) or "T" (adapter.py line 109):
pandas raises ValueError when fewer than three timestamps are present;
with at least three it returns the common spacing of an evenly spaced
index, and the or-default falls back to one minute (60 seconds) when no
frequency is inferred. -/
def pdInferFreq (ds : List Int) : Except PyError Int :=
  match ds with
  | a :: b :: c :: rest =>
    let d := b - a
    if ((a :: b :: c :: rest).zip (b :: c :: rest)).all (fun p => p.2 - p.1 = d) then .ok d
    else .ok 60
  | _ => .error .valueError

/-- Mean of one transposed sample column, np.mean over axis 0. -/
def listMean (col : List ℚ) : ℚ := col.sum / (col.length : ℚ)

/-- V1 path body after df.sort_values("ds") (adapter.py lines 83-120).
The tensor sampling self._pipeline.predict is supplied as the matrix
samples (num_samples rows of horizon values) and np.quantile as the
function npQuantile, both being external library computations; the
quantile levels 0.1, 0.5, 0.9 are the hard-coded arguments of the three
np.quantile calls.  df["ds"].iloc[-1] on an empty frame raises IndexError;
the frequency inference then raises ValueError below three rows.  The
result frame hard-codes the columns q_0.1, q_0.5, q_0.9. -/
def chronosV1Core (dfs : List TSRow) (request : ForecastRequest)
    (samples : List (List ℚ)) (npQuantile : ℚ → List (List ℚ) → List ℚ) :
    Except PyError ChronosV1Frame :=
  match dfs with
  | [] => .error .indexError
  | r0 :: rest =>
    let lastRow := (r0 :: rest).getLast (List.cons_ne_nil r0 rest)
    let low := npQuantile 0.1 samples
    let medianQ := npQuantile 0.5 samples
    let high := npQuantile 0.9 samples
    let meanQ := (samples.transpose).map listMean
    match pdInferFreq ((r0 :: rest).map TSRow.ds) with
    | .error e => .error e
    | .ok freq =>
      let futureDs := (List.range request.prediction_length.toNat).map
        (fun i => lastRow.ds + freq * (Int.ofNat i + 1))
      .ok ⟨r0.unique_id, futureDs, meanQ,
        [("q_0.1", low), ("q_0.5", medianQ), ("q_0.9", high)]⟩

/-- Embedding of ChronosAdapter.predict on the V1 (T5) path: sort the
frame by timestamp, then run the V1 body. -/
def chronosPredictV1 (df : List TSRow) (request : ForecastRequest)
    (samples : List (List ℚ)) (npQuantile : ℚ → List (List ℚ) → List ℚ) :
    Except PyError ChronosV1Frame :=
  chronosV1Core (sortByDs df) request samples npQuantile

theorem chronosV1Core_cons (a b c : TSRow) (t : List TSRow)
    (request : ForecastRequest) (samples : List (List ℚ))
    (npQuantile : ℚ → List (List ℚ) → List ℚ) (fr : Int)
    (hfr : pdInferFreq ((a :: b :: c :: t).map TSRow.ds) = .ok fr) :
    chronosV1Core (a :: b :: c :: t) request samples npQuantile =
      .ok ⟨a.unique_id,
        (List.range request.prediction_length.toNat).map
          (fun i => ((a :: b :: c :: t).getLast (List.cons_ne_nil a (b :: c :: t))).ds
            + fr * (Int.ofNat i + 1)),
        (samples.transpose).map listMean,
        [("q_0.1", npQuantile 0.1 samples), ("q_0.5", npQuantile 0.5 samples),
          ("q_0.9", npQuantile 0.9 samples)]⟩ := by
  simp only [chronosV1Core]
  rw [hfr]

/-- C10 (confirmed): on the V1 (T5) path the returned frame carries
exactly the quantile columns q_0.1, q_0.5 and q_0.9, and the result is
unchanged under any replacement of the requested quantile levels —
including the default request whose levels also contain 0.95 and 0.99. -/
theorem chronos_v1_fixed_quantiles (df : List TSRow) (request : ForecastRequest)
    (samples : List (List ℚ)) (npQuantile : ℚ → List (List ℚ) → List ℚ)
    (h3 : 3 ≤ df.length) :
    ∃ f, chronosPredictV1 df request samples npQuantile = .ok f ∧
      f.quantileCols.map Prod.fst = ["q_0.1", "q_0.5", "q_0.9"] ∧
      f.columns = ["unique_id", "ds", "mean", "q_0.1", "q_0.5", "q_0.9"] ∧
      ∀ qs, chronosPredictV1 df
          ⟨request.prediction_length, qs, request.parameters⟩ samples npQuantile = .ok f := by
  have hlen : (sortByDs df).length = df.length :=
    (List.perm_insertionSort (fun a b : TSRow => a.ds ≤ b.ds) df).length_eq
  obtain ⟨a, b, c, t, hshape⟩ : ∃ a b c t, sortByDs df = a :: b :: c :: t := by
    cases h1 : sortByDs df with
    | nil => rw [h1] at hlen; simp at hlen; omega
    | cons a t1 =>
      cases t1 with
      | nil => rw [h1] at hlen; simp at hlen; omega
      | cons b t2 =>
        cases t2 with
        | nil => rw [h1] at hlen; simp at hlen; omega
        | cons c t3 => exact ⟨a, b, c, t3, rfl⟩
  obtain ⟨fr, hfr⟩ : ∃ fr, pdInferFreq ((a :: b :: c :: t).map TSRow.ds) = .ok fr := by
    simp only [List.map_cons, pdInferFreq]
    split
    · exact ⟨_, rfl⟩
    · exact ⟨_, rfl⟩
  have h1 : chronosPredictV1 df request samples npQuantile =
      .ok ⟨a.unique_id,
        (List.range request.prediction_length.toNat).map
          (fun i => ((a :: b :: c :: t).getLast (List.cons_ne_nil a (b :: c :: t))).ds
            + fr * (Int.ofNat i + 1)),
        (samples.transpose).map listMean,
        [("q_0.1", npQuantile 0.1 samples), ("q_0.5", npQuantile 0.5 samples),
          ("q_0.9", npQuantile 0.9 samples)]⟩ := by
    unfold chronosPredictV1
    rw [hshape]
    exact chronosV1Core_cons a b c t request samples npQuantile fr hfr
  refine ⟨_, h1, rfl, rfl, fun qs => ?_⟩
  unfold chronosPredictV1
  rw [hshape]
  exact chronosV1Core_cons a b c t ⟨request.prediction_length, qs, request.parameters⟩
    samples npQuantile fr hfr

/-- Witness for C10 at a concrete three-row context and the default
request carrying the 0.95 and 0.99 levels. -/
theorem chronos_v1_fixed_quantiles_witness :
    3 ≤ ([⟨"m", 0, 1⟩, ⟨"m", 60, 2⟩, ⟨"m", 120, 3⟩] : List TSRow).length ∧
    ∃ f, chronosPredictV1 [⟨"m", 0, 1⟩, ⟨"m", 60, 2⟩, ⟨"m", 120, 3⟩]
        ⟨15, defaultQuantiles, []⟩ [] (fun _ _ => []) = .ok f ∧
      f.quantileCols.map Prod.fst = ["q_0.1", "q_0.5", "q_0.9"] ∧
      f.columns = ["unique_id", "ds", "mean", "q_0.1", "q_0.5", "q_0.9"] ∧
      ∀ qs, chronosPredictV1 [⟨"m", 0, 1⟩, ⟨"m", 60, 2⟩, ⟨"m", 120, 3⟩]
          ⟨(15 : Int), qs, []⟩ [] (fun _ _ => []) = .ok f :=
  ⟨by decide, chronos_v1_fixed_quantiles _ _ _ _ (by decide)⟩

/-- C5 (code_bug exhibit): with exactly one context row, generate_forecast
performs no row-count check: the single-row frame is handed to the model
port and the cycle completes without any data-insufficiency error (no such
error class exists in the code).  On the local V1 path the model predicts
first and only the subsequent pandas frequency inference then raises a
plain ValueError.  The spec explicitly requires a fail-fast
DataInsufficiencyError instead. -/
theorem generate_forecast_single_row_no_check :
    generate_forecast scnPipeline [⟨"up", 5, 2⟩] probePredict =
      .ok ⟨["probe"], [⟨15, []⟩, ⟨1, []⟩]⟩ ∧
    chronosPredictV1 [⟨"up", 5, 2⟩] ⟨15, defaultQuantiles, []⟩ [] (fun _ _ => []) =
      .error .valueError := by
  exact ⟨rfl, rfl⟩

/- Forecast write step: InferenceLoop.write_forecast_results
(src/openanomaly/pipelines/inference.py lines 132-163). -/

/-- pipeline.query.split("\x7b")[0].strip(): the base query name before any
label selector. -/
def sourceMetricOf (query : String) : String :=
  String.mk (trimWS (splitFirst '\x7b' query.data).1)

/-- col.startswith("q_"). -/
def startsQ (col : String) : Bool := "q_".data.isPrefixOf col.data

/-- col.split("_")[1]: the quantile level rendered into the label.  For the
columns that pass the q_ filter the split always has a second piece. -/
def quantileToken (col : String) : String :=
  String.mk ((col.data.splitOn '_').getD 1 [])

/-- row[col] on a forecast row; a missing column, a KeyError in Python,
is modelled by the default 0 and never hit by the theorems below. -/
def cellValue (row : ForecastRow) (col : String) : ℚ :=
  ((row.cells.find? fun kv => kv.1 == col).map Prod.snd).getD 0

/-- One output point appended to output_metrics: the dict
with keys unique_id, ds, y. -/
structure OutputMetric where
  unique_id : String
  ds : Int
  y : ℚ
  deriving DecidableEq, Repr

/-- Shared front of the two synthesized identifiers:
base_forecast\x7bpipeline="name", source="src". -/
def uidCommon (base pname src : String) : String :=
  base ++ "_forecast\x7bpipeline=\"" ++ pname ++ "\", source=\"" ++ src

/-- Identifier of a mean row: the f-string of inference.py line 145. -/
def meanUid (base pname src : String) : String :=
  uidCommon base pname src ++ "\", type=\"mean\"\x7d"

/-- Identifier of a quantile row: the f-string of inference.py line 155. -/
def quantUid (base pname src tok : String) : String :=
  uidCommon base pname src ++ ("\", quantile=\"" ++ (tok ++ "\"\x7d"))

/-- Embedding of InferenceLoop.write_forecast_results: for every row of
the forecast frame append one mean point and one point per q_ column, then
issue a single tsdb.write call with the whole batch when any points exist.
The first component is output_metrics, the second the list of write calls
made to the store port. -/
def write_forecast_results (pipeline : Pipeline) (forecast_df : ForecastFrame) :
    List OutputMetric × List (List OutputMetric) :=
  let source_metric := sourceMetricOf pipeline.query
  let base_name := OutputConfig.metric_prefix pipeline.output ++ pipeline.name
  let output_metrics := forecast_df.rows.flatMap fun row =>
    { unique_id := meanUid base_name pipeline.name source_metric
      ds := row.ds
      y := cellValue row "mean" } ::
    (forecast_df.columns.filter fun col => startsQ col).map fun col =>
      ({ unique_id := quantUid base_name pipeline.name source_metric (quantileToken col)
         ds := row.ds
         y := cellValue row col } : OutputMetric)
  (output_metrics, if output_metrics.isEmpty then [] else [output_metrics])

def emittedMetrics (p : Pipeline) (df : ForecastFrame) : List OutputMetric :=
  (write_forecast_results p df).1

def writeCalls (p : Pipeline) (df : ForecastFrame) : List (List OutputMetric) :=
  (write_forecast_results p df).2

def qColumns (df : ForecastFrame) : List String :=
  df.columns.filter fun col => startsQ col

/-- The mean point the write step emits for one row. -/
def mkMeanMetric (p : Pipeline) (row : ForecastRow) : OutputMetric :=
  { unique_id := meanUid (OutputConfig.metric_prefix p.output ++ p.name) p.name
      (sourceMetricOf p.query)
    ds := row.ds
    y := cellValue row "mean" }

/-- The quantile point the write step emits for one row and one q_ column. -/
def mkQuantMetric (p : Pipeline) (row : ForecastRow) (col : String) : OutputMetric :=
  { unique_id := quantUid (OutputConfig.metric_prefix p.output ++ p.name) p.name
      (sourceMetricOf p.query) (quantileToken col)
    ds := row.ds
    y := cellValue row col }

theorem emittedMetrics_eq (p : Pipeline) (df : ForecastFrame) :
    emittedMetrics p df =
      df.rows.flatMap fun row =>
        mkMeanMetric p row :: (qColumns df).map fun col => mkQuantMetric p row col := rfl

theorem writeCalls_eq (p : Pipeline) (df : ForecastFrame) :
    writeCalls p df =
      if (emittedMetrics p df).isEmpty then [] else [emittedMetrics p df] := rfl

theorem typeTail_ne_quantTail (tok : String) :
    ("\", type=\"mean\"\x7d" : String) ≠ "\", quantile=\"" ++ (tok ++ "\"\x7d") := by
  intro h
  have hd := congrArg String.data h
  rw [String.data_append] at hd
  have h2 := congrArg (fun l => l[3]?) hd
  simp only at h2
  rw [List.getElem?_append_left (by decide)] at h2
  exact absurd h2 (by decide)

theorem meanUid_ne_quantUid (base pname src tok : String) :
    meanUid base pname src ≠ quantUid base pname src tok := by
  intro h
  apply typeTail_ne_quantTail tok
  have hd := congrArg String.data h
  unfold meanUid quantUid at hd
  rw [String.data_append, String.data_append] at hd
  exact String.ext (List.append_cancel_left hd)

theorem quantUid_inj_tok {base pname src tok tok' : String}
    (h : quantUid base pname src tok = quantUid base pname src tok') : tok = tok' := by
  have hd := congrArg String.data h
  unfold quantUid at hd
  simp only [String.data_append] at hd
  have h1 := List.append_cancel_left hd
  have h2 := List.append_cancel_left h1
  exact String.ext (List.append_cancel_right h2)

theorem count_flatMap_zero {α β : Type} [DecidableEq β] {f : α → List β} {b : β} :
    ∀ {l : List α}, (∀ a ∈ l, (f a).count b = 0) → (l.flatMap f).count b = 0
  | [], _ => rfl
  | a :: t, h => by
    rw [List.flatMap_cons, List.count_append]
    rw [h a (List.mem_cons_self _ _),
      count_flatMap_zero (fun x hx => h x (List.mem_cons_of_mem _ hx))]

theorem count_flatMap_one {α β : Type} [DecidableEq β] {f : α → List β} {b : β} {a : α} :
    ∀ {l : List α}, a ∈ l → l.Nodup → (f a).count b = 1 →
      (∀ x ∈ l, x ≠ a → (f x).count b = 0) → (l.flatMap f).count b = 1
  | [], ha, _, _, _ => absurd ha (List.not_mem_nil a)
  | x :: t, ha, hnd, h1, h0 => by
    rw [List.flatMap_cons, List.count_append]
    rcases List.mem_cons.mp ha with hEq | hmem
    · subst hEq
      rw [h1, count_flatMap_zero (fun y hy =>
        h0 y (List.mem_cons_of_mem _ hy)
          (fun hya => (List.nodup_cons.mp hnd).1 (hya ▸ hy)))]
    · have hxa : x ≠ a := fun hEq2 => (List.nodup_cons.mp hnd).1 (hEq2 ▸ hmem)
      rw [h0 x (List.mem_cons_self _ _) hxa,
        count_flatMap_one hmem (List.nodup_cons.mp hnd).2 h1
          (fun y hy hya => h0 y (List.mem_cons_of_mem _ hy) hya)]

theorem sum_map_const {α : Type} (l : List α) (n : ℕ) :
    (l.map fun _ => n).sum = l.length * n := by
  induction l with
  | nil => simp
  | cons a t ih => simp [ih, Nat.succ_mul, Nat.add_comm]

theorem count_mean_in_quants (p : Pipeline) (r r' : ForecastRow) (cols : List String) :
    ((cols.map fun col => mkQuantMetric p r' col).count (mkMeanMetric p r)) = 0 := by
  rw [List.count_eq_zero]
  intro hmem
  obtain ⟨c, hc, hEq⟩ := List.mem_map.mp hmem
  exact meanUid_ne_quantUid _ _ _ _ (congrArg OutputMetric.unique_id hEq.symm)

theorem count_mean_self (p : Pipeline) (r : ForecastRow) (cols : List String) :
    ((mkMeanMetric p r :: cols.map fun col => mkQuantMetric p r col).count
      (mkMeanMetric p r)) = 1 := by
  rw [List.count_cons, count_mean_in_quants]
  simp

theorem count_mean_other (p : Pipeline) (r r' : ForecastRow) (cols : List String)
    (hds : r.ds ≠ r'.ds) :
    ((mkMeanMetric p r' :: cols.map fun col => mkQuantMetric p r' col).count
      (mkMeanMetric p r)) = 0 := by
  rw [List.count_cons, count_mean_in_quants]
  have hne : mkMeanMetric p r' ≠ mkMeanMetric p r :=
    fun h => hds (congrArg OutputMetric.ds h).symm
  simp [hne]

theorem count_quant_other (p : Pipeline) (r r' : ForecastRow) (c : String)
    (cols : List String) (hds : r.ds ≠ r'.ds) :
    ((mkMeanMetric p r' :: cols.map fun col => mkQuantMetric p r' col).count
      (mkQuantMetric p r c)) = 0 := by
  rw [List.count_eq_zero]
  intro hmem
  rcases List.mem_cons.mp hmem with hEq | hmem2
  · exact meanUid_ne_quantUid _ _ _ _ (congrArg OutputMetric.unique_id hEq).symm
  · obtain ⟨c', hc', hEq⟩ := List.mem_map.mp hmem2
    exact hds (congrArg OutputMetric.ds hEq).symm

theorem count_quant_self (p : Pipeline) (r : ForecastRow) (c : String) :
    ∀ cols : List String, c ∈ cols → (cols.map quantileToken).Nodup →
      ((cols.map fun col => mkQuantMetric p r col).count (mkQuantMetric p r c)) = 1
  | [], hc, _ => absurd hc (List.not_mem_nil c)
  | c0 :: rest, hc, hnd => by
    have hnd' := List.nodup_cons.mp (by simpa using hnd :
      (quantileToken c0 :: rest.map quantileToken).Nodup)
    rw [List.map_cons, List.count_cons]
    rcases List.mem_cons.mp hc with hEq | hmem
    · subst hEq
      have h0 : ((rest.map fun col => mkQuantMetric p r col).count
          (mkQuantMetric p r c)) = 0 := by
        rw [List.count_eq_zero]
        intro hmem2
        obtain ⟨c', hc', hEq2⟩ := List.mem_map.mp hmem2
        have htok : quantileToken c' = quantileToken c :=
          quantUid_inj_tok (congrArg OutputMetric.unique_id hEq2)
        exact hnd'.1 (htok ▸ List.mem_map_of_mem quantileToken hc')
      rw [h0]
      simp
    · have hne : mkQuantMetric p r c0 ≠ mkQuantMetric p r c := by
        intro hEq2
        have htok := quantUid_inj_tok (congrArg OutputMetric.unique_id hEq2)
        exact hnd'.1 (htok ▸ List.mem_map_of_mem quantileToken hmem)
      rw [count_quant_self p r c rest hmem hnd'.2]
      simp [hne]

/-- C6 (confirmed): for a non-empty forecast result (with distinct output
timestamps and distinct quantile levels, as forecast frames have), the
write step issues exactly one batched store call containing all emitted
points, emits per row exactly one mean point and exactly one point per q_
column with the synthesized identifiers
prefix+name_forecast\x7bpipeline, source, type="mean" | quantile="level"\x7d,
and emits nothing else. -/
theorem write_forecast_results_shape (p : Pipeline) (df : ForecastFrame)
    (hrows : df.rows ≠ [])
    (hds : (df.rows.map ForecastRow.ds).Nodup)
    (htok : ((qColumns df).map quantileToken).Nodup) :
    writeCalls p df = [emittedMetrics p df] ∧
    (emittedMetrics p df).length = df.rows.length * (1 + (qColumns df).length) ∧
    (∀ r ∈ df.rows, (emittedMetrics p df).count (mkMeanMetric p r) = 1 ∧
      ∀ c ∈ qColumns df, (emittedMetrics p df).count (mkQuantMetric p r c) = 1) ∧
    (∀ m ∈ emittedMetrics p df, ∃ r ∈ df.rows,
      m = mkMeanMetric p r ∨ ∃ c ∈ qColumns df, m = mkQuantMetric p r c) := by
  have hrowsnd : df.rows.Nodup := hds.of_map
  have hinj := List.inj_on_of_nodup_map hds
  refine ⟨?_, ?_, ?_, ?_⟩
  · rw [writeCalls_eq, if_neg]
    obtain ⟨r0, t0, hrt⟩ : ∃ r0 t0, df.rows = r0 :: t0 := by
      cases hcase : df.rows with
      | nil => exact absurd hcase hrows
      | cons r0 t0 => exact ⟨r0, t0, rfl⟩
    rw [emittedMetrics_eq, hrt, List.flatMap_cons]
    simp
  · rw [emittedMetrics_eq, List.length_flatMap]
    have hpoint : ∀ r ∈ df.rows,
        (List.length ∘ fun row =>
          mkMeanMetric p row :: (qColumns df).map fun col => mkQuantMetric p row col) r
          = 1 + (qColumns df).length := by
      intro r _
      simp [Nat.add_comm]
    rw [List.map_congr_left hpoint, sum_map_const]
  · intro r hr
    constructor
    · rw [emittedMetrics_eq]
      apply count_flatMap_one hr hrowsnd (count_mean_self p r (qColumns df))
      intro x hx hxr
      apply count_mean_other
      intro hEq
      exact hxr (hinj hx hr hEq.symm)
    · intro c hc
      rw [emittedMetrics_eq]
      apply count_flatMap_one hr hrowsnd
      · rw [List.count_cons, count_quant_self p r c (qColumns df) hc htok]
        have hne : mkMeanMetric p r ≠ mkQuantMetric p r c :=
          fun h => meanUid_ne_quantUid _ _ _ _ (congrArg OutputMetric.unique_id h)
        simp [hne]
      · intro x hx hxr
        apply count_quant_other
        intro hEq
        exact hxr (hinj hx hr hEq.symm)
  · intro m hm
    rw [emittedMetrics_eq] at hm
    obtain ⟨r, hr, hmem⟩ := List.mem_flatMap.mp hm
    rcases List.mem_cons.mp hmem with hEq | hmem2
    · exact ⟨r, hr, Or.inl hEq⟩
    · obtain ⟨c, hc, hEq⟩ := List.mem_map.mp hmem2
      exact ⟨r, hr, Or.inr ⟨c, hc, hEq.symm⟩⟩

/-- A concrete two-row forecast frame with a mean and two quantile
columns. -/
def frameW : ForecastFrame :=
  { columns := ["unique_id", "ds", "mean", "q_0.1", "q_0.5"]
    rows := [⟨0, [("mean", 1), ("q_0.1", 2), ("q_0.5", 3)]⟩,
             ⟨60, [("mean", 4), ("q_0.1", 5), ("q_0.5", 6)]⟩] }

/-- Witness for C6 on the scenario pipeline and a concrete frame. -/
theorem write_forecast_results_shape_witness :
    frameW.rows ≠ [] ∧ (frameW.rows.map ForecastRow.ds).Nodup ∧
    ((qColumns frameW).map quantileToken).Nodup ∧
    (writeCalls scnPipeline frameW = [emittedMetrics scnPipeline frameW] ∧
      (emittedMetrics scnPipeline frameW).length =
        frameW.rows.length * (1 + (qColumns frameW).length) ∧
      (∀ r ∈ frameW.rows,
        (emittedMetrics scnPipeline frameW).count (mkMeanMetric scnPipeline r) = 1 ∧
        ∀ c ∈ qColumns frameW,
          (emittedMetrics scnPipeline frameW).count (mkQuantMetric scnPipeline r c) = 1) ∧
      (∀ m ∈ emittedMetrics scnPipeline frameW, ∃ r ∈ frameW.rows,
        m = mkMeanMetric scnPipeline r ∨
          ∃ c ∈ qColumns frameW, m = mkQuantMetric scnPipeline r c)) :=
  ⟨by decide, by decide, by decide,
    write_forecast_results_shape scnPipeline frameW (by decide) (by decide) (by decide)⟩

/- Training loop: src/openanomaly/core/services/training_loop.py. -/

/-- Window parsing of TrainingLoop.run_training (training_loop.py lines
44-50): a d suffix gives days, an h suffix hours, anything else a 30-day
default; the int() conversion may raise ValueError, which propagates.
The result is the window length in seconds. -/
def trainingWindowDelta (window_str : String) : Except PyError Int :=
  if window_str.data.getLast? = some 'd' then
    (pyInt window_str.data.dropLast).map fun v => v * 86400
  else if window_str.data.getLast? = some 'h' then
    (pyInt window_str.data.dropLast).map fun v => v * 3600
  else .ok (30 * 86400)

/-- The two port calls the training loop can make. -/
inductive TrainingEffect where
  | fetch (query : String)
  | train
  deriving DecidableEq, Repr

/-- Embedding of TrainingLoop.run_training (training_loop.py lines 25-81):
return None before any I/O when the training configuration is absent or
disabled; otherwise compute the window, fetch (the read_series port result
is supplied as history_df), return None on an empty fetch, and otherwise
train through the model port (whose result or failure is supplied as
trainResult); a training failure is logged and re-raised.  The second
component records the port calls actually made. -/
def run_training (pipeline : Pipeline) (history_df : List TSRow)
    (trainResult : Except PyError String) :
    Except PyError (Option String) × List TrainingEffect :=
  match pipeline.training with
  | none => (.ok none, [])
  | some tr =>
    if tr.enabled = false then (.ok none, [])
    else
      match trainingWindowDelta tr.window with
      | .error e => (.error e, [])
      | .ok _delta =>
        if history_df.isEmpty then (.ok none, [.fetch pipeline.query])
        else
          match trainResult with
          | .ok newId => (.ok (some newId), [.fetch pipeline.query, .train])
          | .error e => (.error e, [.fetch pipeline.query, .train])

/-- C8 (confirmed): when the training configuration is absent or has
enabled false, run_training returns None and makes neither a time-series
fetch nor a model train call. -/
theorem run_training_disabled_no_effects (p : Pipeline) (df : List TSRow)
    (tres : Except PyError String)
    (h : p.training = none ∨ ∃ tr, p.training = some tr ∧ tr.enabled = false) :
    run_training p df tres = (.ok none, []) := by
  rcases h with h | ⟨tr, h, hEn⟩
  · simp [run_training, h]
  · simp [run_training, h, hEn]

/-- The scenario pipeline with training present but disabled. -/
def disabledTrainingPipeline : Pipeline :=
  { scnPipeline with training := some ⟨false, "0 0 * * *", "30d", none, []⟩ }

/-- Witness for C8: a pipeline without a training configuration and one
with a disabled configuration both return None with no port calls. -/
theorem run_training_disabled_no_effects_witness :
    run_training scnPipeline [] (.ok "model-2") = (.ok none, []) ∧
    run_training disabledTrainingPipeline [⟨"up", 0, 1⟩] (.ok "model-2") = (.ok none, []) :=
  ⟨run_training_disabled_no_effects _ _ _ (Or.inl rfl),
    run_training_disabled_no_effects _ _ _ (Or.inr ⟨_, rfl, rfl⟩)⟩

/- Anomaly scoring, z_score technique.  The in-repository
InferenceLoop.run_anomaly_check (src/openanomaly/pipelines/inference.py
lines 65-85) is an unimplemented placeholder that logs and returns, so the
scoring below is modelled from the specification text of section 4.4. -/

/-- The AnomalyScore dataclass (common/dataclasses.py lines 20-28). -/
structure AnomalyScoreR where
  timestamp : Int
  actual_value : ℚ
  predicted_value : ℚ
  score : ℚ
  is_anomaly : Bool
  deriving DecidableEq, Repr

/-- Modelled from the spec: the minimum used in the z_score clipping. -/
def minQ (a b : ℚ) : ℚ := if a ≤ b then a else b

/-- Modelled from the spec: the absolute deviation of actual from mean. -/
def absQ (a : ℚ) : ℚ := if a < 0 then -a else a

/-- Modelled from the spec: mean of the rolling residual window. -/
def residualMean (rs : List ℚ) : ℚ := rs.sum / (rs.length : ℚ)

/-- Modelled from the spec: population variance of the rolling residual
window (the square of the stddev of recent residuals). -/
def residualVar (rs : List ℚ) : ℚ :=
  (rs.map fun r => (r - residualMean rs) * (r - residualMean rs)).sum / (rs.length : ℚ)

/-- Modelled from the spec: score = min(1, |actual - mean| /
(threshold * stddev_of_residuals)). -/
def zScoreScore (threshold stddev actual predicted : ℚ) : ℚ :=
  minQ 1 (absQ (actual - predicted) / (threshold * stddev))

/-- Modelled from the spec: per aligned timestamp (timestamp, actual,
predicted) compute the z_score and flag the point anomalous when the score
reaches 1. -/
def runZScoreCheck (points : List (Int × ℚ × ℚ)) (threshold stddev : ℚ) :
    List AnomalyScoreR :=
  points.map fun pt =>
    { timestamp := pt.1
      actual_value := pt.2.1
      predicted_value := pt.2.2
      score := zScoreScore threshold stddev pt.2.1 pt.2.2
      is_anomaly := decide (1 ≤ zScoreScore threshold stddev pt.2.1 pt.2.2) }

/-- C7 (confirmed, modelled from the spec): with the standard deviation
taken from a rolling residual window (stddev nonnegative and squaring to
the residual variance), every aligned point checked with the z_score
technique carries score min(1, |actual - predicted| / (threshold * stddev))
and is flagged anomalous exactly when the score reaches 1; in the spec
scenario (residual stddev 2, threshold 3, deviation 9) the score is 1 and
the point is anomalous. -/
theorem z_score_check_spec (residuals : List ℚ) (threshold stddev : ℚ)
    (points : List (Int × ℚ × ℚ))
    (hsd : 0 ≤ stddev) (hvar : stddev * stddev = residualVar residuals) :
    (∀ e ∈ runZScoreCheck points threshold stddev,
      e.score = minQ 1 (absQ (e.actual_value - e.predicted_value) / (threshold * stddev)) ∧
      (e.is_anomaly = true ↔ 1 ≤ e.score)) ∧
    (∀ e ∈ runZScoreCheck [((0 : Int), (19 : ℚ), (10 : ℚ))] 3 2,
      e.score = 1 ∧ e.is_anomaly = true) := by
  constructor
  · intro e he
    obtain ⟨pt, hpt, hEq⟩ := List.mem_map.mp he
    subst hEq
    exact ⟨rfl, by simp⟩
  · intro e he
    obtain ⟨pt, hpt, hEq⟩ := List.mem_map.mp he
    have hpt1 : pt = ((0 : Int), (19 : ℚ), (10 : ℚ)) := List.mem_singleton.mp hpt
    subst hpt1
    subst hEq
    constructor
    · norm_num [zScoreScore, minQ, absQ]
    · norm_num [zScoreScore, minQ, absQ]

theorem residualVar_window_example : (2 : ℚ) * 2 = residualVar [2, -2, 2, -2] := by
  norm_num [residualVar, residualMean]

theorem two_nonneg_example : (0 : ℚ) ≤ 2 := by norm_num

/-- Witness for C7: the rolling residual window [2, -2, 2, -2] has stddev
2, and with threshold 3 the point deviating by 9 scores 1 and is
anomalous. -/
theorem z_score_check_spec_witness :
    (0 : ℚ) ≤ 2 ∧ (2 : ℚ) * 2 = residualVar [2, -2, 2, -2] ∧
    ((∀ e ∈ runZScoreCheck [((5 : Int), (19 : ℚ), (10 : ℚ))] 3 2,
        e.score = minQ 1 (absQ (e.actual_value - e.predicted_value) / (3 * 2)) ∧
        (e.is_anomaly = true ↔ 1 ≤ e.score)) ∧
      (∀ e ∈ runZScoreCheck [((0 : Int), (19 : ℚ), (10 : ℚ))] 3 2,
        e.score = 1 ∧ e.is_anomaly = true)) :=
  ⟨two_nonneg_example, residualVar_window_example,
    z_score_check_spec [2, -2, 2, -2] 3 2 [((5 : Int), (19 : ℚ), (10 : ℚ))]
      two_nonneg_example residualVar_window_example⟩

end OpenAnomaly
